import Mathlib

/-!
Verification of the extraction-and-lifecycle subsystem of the WordPress
chatbot backend (`src/main.py`).

Python strings are embedded as `List Char`.  Machine-level caveats of the
embedding, noted where relevant:
* `str.strip()` and the whitespace skipped by `json.loads` are both modelled
  with the ASCII whitespace characters space, tab, newline, carriage return;
* `json.loads` is modelled by an executable recursive-descent parser over a
  `Json` value type whose numbers are integers (no floats, no `\u` escapes,
  leading zeros accepted); the claims under study involve none of these.
-/

namespace WpChatbot

/-- ASCII whitespace, as stripped by `str.strip()` and skipped by `json.loads`. -/
def isWs (c : Char) : Bool :=
  c = ' ' || c = '\t' || c = '\n' || c = '\r'

/-- Drop leading whitespace. -/
def ldrop (l : List Char) : List Char := l.dropWhile isWs

/-- Drop trailing whitespace. -/
def rdrop (l : List Char) : List Char := (l.reverse.dropWhile isWs).reverse

/-- Python `str.strip()`. -/
def pyStrip (l : List Char) : List Char := rdrop (ldrop l)

/-- Python `str.find(c)`: index of the first occurrence, `none` for `-1`. -/
def find (c : Char) : List Char → Option Nat
  | [] => none
  | d :: t => if d = c then some 0 else (find c t).map (· + 1)

/-- Python `str.rfind(c)`: index of the last occurrence, `none` for `-1`. -/
def rfind (c : Char) (l : List Char) : Option Nat :=
  (find c l.reverse).map (fun i => l.length - 1 - i)

/-- Fuel-indexed worker for Python `str.replace(pat, rep)`: scans left to
right, replacing non-overlapping occurrences.  `fuel = l.length` always
suffices because each step consumes at least one character.
(Python's behaviour for an empty pattern -- interleaving `rep` everywhere --
is not modelled; the patterns used in the source are nonempty.) -/
def replaceF : Nat → List Char → List Char → List Char → List Char
  | 0, l, _, _ => l
  | _ + 1, [], _, _ => []
  | f + 1, c :: rest, pat, rep =>
    if pat.isPrefixOf (c :: rest) && !pat.isEmpty then
      rep ++ replaceF f ((c :: rest).drop pat.length) pat rep
    else
      c :: replaceF f rest pat rep

/-- Python `str.replace(pat, rep)` for nonempty `pat`. -/
def replace (l pat rep : List Char) : List Char := replaceF l.length l pat rep

/-- JSON values, as produced by `json.loads` (numbers restricted to integers). -/
inductive Json where
  | null : Json
  | bool : Bool → Json
  | num : Int → Json
  | str : List Char → Json
  | arr : List Json → Json
  | obj : List (List Char × Json) → Json

/-- Skip JSON inter-token whitespace. -/
def skipWs (l : List Char) : List Char := l.dropWhile isWs

/-- Decode a JSON string escape character (the forms appearing in practice:
quote, backslash and slash map to themselves, and the n, t, r letters map to
their control characters). -/
def unescape (e : Char) : Option Char :=
  if e = '"' ∨ e = '\\' ∨ e = '/' then some e
  else if e = 'n' then some '\n'
  else if e = 't' then some '\t'
  else if e = 'r' then some '\r'
  else none

/-- Scan the body of a JSON string literal after the opening quote; returns
the decoded characters and the remainder after the closing quote.  Escapes
are restricted to the forms appearing in practice. -/
def scanString : List Char → Option (List Char × List Char)
  | [] => none
  | '"' :: r => some ([], r)
  | '\\' :: e :: r =>
    (unescape e).bind fun c =>
      (scanString r).map fun p => (c :: p.1, p.2)
  | c :: r => (scanString r).map fun p => (c :: p.1, p.2)

/-- Decimal value of one digit character (48 is the code point of zero). -/
def digitVal (d : Char) : Nat := d.toNat - 48

/-- Parse a run of decimal digits into a natural number. -/
def parseDigits (l : List Char) : Option (Nat × List Char) :=
  let ds := l.takeWhile Char.isDigit
  if ds.isEmpty then none
  else some (ds.foldl (fun a d => 10 * a + digitVal d) 0, l.drop ds.length)

/-- Parse the scalar tokens `true`, `false`, `null` and integer numerals. -/
def parseScalar (l : List Char) : Option (Json × List Char) :=
  if ("true".toList).isPrefixOf l then some (.bool true, l.drop 4)
  else if ("false".toList).isPrefixOf l then some (.bool false, l.drop 5)
  else if ("null".toList).isPrefixOf l then some (.null, l.drop 4)
  else
    match l with
    | '-' :: r => (parseDigits r).map fun p => (.num (-(p.1 : Int)), p.2)
    | _ => (parseDigits l).map fun p => (.num (p.1 : Int), p.2)

mutual

/-- Parse one JSON value; returns the value and the unconsumed remainder. -/
def parseValue : Nat → List Char → Option (Json × List Char)
  | 0, _ => none
  | f + 1, l =>
    match skipWs l with
    | '\x7b' :: r =>
      match skipWs r with
      | '\x7d' :: r2 => some (.obj [], r2)
      | _ => (parseMembers f r).map fun p => (.obj p.1, p.2)
    | '[' :: r =>
      match skipWs r with
      | ']' :: r2 => some (.arr [], r2)
      | _ => (parseElems f r).map fun p => (.arr p.1, p.2)
    | '"' :: r => (scanString r).map fun p => (.str p.1, p.2)
    | l' => parseScalar l'

/-- Parse the members of a nonempty JSON object, up to and including the
closing brace. -/
def parseMembers : Nat → List Char → Option (List (List Char × Json) × List Char)
  | 0, _ => none
  | f + 1, l =>
    match skipWs l with
    | '"' :: r =>
      (scanString r).bind fun k =>
        match skipWs k.2 with
        | ':' :: r3 =>
          (parseValue f r3).bind fun v =>
            match skipWs v.2 with
            | ',' :: r5 => (parseMembers f r5).map fun p => ((k.1, v.1) :: p.1, p.2)
            | '\x7d' :: r5 => some ([(k.1, v.1)], r5)
            | _ => none
        | _ => none
    | _ => none

/-- Parse the elements of a nonempty JSON array, up to and including the
closing bracket. -/
def parseElems : Nat → List Char → Option (List Json × List Char)
  | 0, _ => none
  | f + 1, l =>
    (parseValue f l).bind fun v =>
      match skipWs v.2 with
      | ',' :: r2 => (parseElems f r2).map fun p => (v.1 :: p.1, p.2)
      | ']' :: r2 => some ([v.1], r2)
      | _ => none

end

/-- Python `json.loads`: strip the input (`json.loads` itself tolerates
surrounding whitespace, so pre-stripping is behaviour-preserving), parse one
document and require it to consume the whole input.  The fuel `2 * length + 2`
dominates the recursion depth, which consumes at least one character every
two nested calls. -/
def json_loads (l : List Char) : Option Json :=
  let s := pyStrip l
  match parseValue (2 * s.length + 2) s with
  | some (v, rest) => if rest = [] then some v else none
  | none => none

/-- Code-fence marker, Python literal three backticks. -/
def ticks3 : List Char := ['`', '`', '`']

/-- The fence token with language tag, Python literal of backticks and json. -/
def fenceJson : List Char := ['`', '`', '`', 'j', 's', 'o', 'n']

/-- A payload wrapped in a fenced code block with a `json` language tag,
the common shape of model output that the salvage parser must undo. -/
def wrapJson (content : List Char) : List Char :=
  fenceJson ++ '\n' :: (content ++ '\n' :: ticks3)

/-- Failure modes of `extract_json_from_text`, all `ValueError`s in Python:
the explicit `raise ValueError("Empty AI response")`, the uncaught
`json.JSONDecodeError` of the second `json.loads` (a `ValueError` subclass),
and the final `raise ValueError("Could not extract valid JSON")`. -/
inductive ExtractErr where
  | emptyInput : ExtractErr
  | decodeError : ExtractErr
  | noJson : ExtractErr
deriving DecidableEq

/-- `extract_json_from_text` (src/main.py lines 44-60): trim, strip a leading
code fence and its `json` tag by global replacement, try `json.loads`, then
try the substring from the first brace to the last closing brace. -/
def extract_json_from_text (text : List Char) : Except ExtractErr Json :=
  if text = [] then .error .emptyInput
  else
    let cleaned0 := pyStrip text
    let cleaned :=
      if ticks3.isPrefixOf cleaned0 then
        pyStrip (replace (replace cleaned0 fenceJson []) ticks3 [])
      else cleaned0
    match json_loads cleaned with
    | some v => .ok v
    | none =>
      match find '\x7b' cleaned, rfind '\x7d' cleaned with
      | some s, some e =>
        match json_loads ((cleaned.drop s).take (e + 1 - s)) with
        | some v => .ok v
        | none => .error .decodeError
      | _, _ => .error .noJson

/-- The fixed fallback record of `extract_lead_data` (src/main.py lines 152-162). -/
def fallbackLead : Json :=
  .obj
    [ ("intent".toList, .str "sales".toList)
    , ("service_interest".toList, .str "Website redesign".toList)
    , ("budget_range".toList, .str "unknown".toList)
    , ("timeline".toList, .str "unknown".toList)
    , ("urgency_level".toList, .str "medium".toList)
    , ("lead_score".toList, .num 50)
    , ("lead_temperature".toList, .str "warm".toList)
    , ("ai_summary".toList, .str "Lead captured but details incomplete.".toList)
    , ("suggested_action".toList, .str "Review manually".toList) ]

/-- `extract_lead_data` (src/main.py lines 103-162) as a function of the raw
text returned by the extraction backend (the backend call itself is an
external collaborator; its output is this function's argument): salvage the
JSON, and on any salvage failure return the fixed fallback record. -/
def extract_lead_data (raw : List Char) : Json :=
  match extract_json_from_text raw with
  | .ok v => v
  | .error _ => fallbackLead

/-- The normalization in `chat` (src/main.py lines 300-305): a list collapses
to its first element (or an empty dict), and any non-dict becomes an empty
dict. -/
def ensure_dict (v : Json) : Json :=
  let v1 :=
    match v with
    | .arr (x :: _) => x
    | .arr [] => .obj []
    | w => w
  match v1 with
  | .obj kvs => .obj kvs
  | _ => .obj []

/-- Python `str.isdigit()` restricted to ASCII digits: nonempty and
all-digits. -/
def pyIsDigit (l : List Char) : Bool := !l.isEmpty && l.all Char.isDigit

/-- The deterministic contact detection of `chat` (src/main.py lines 307-311):
strip the latest user message, then `is_phone` = all-digit with length at
least 7, `is_email` = contains both an at sign and a dot. -/
def detect (content : List Char) : Bool × Bool :=
  let t := pyStrip content
  (pyIsDigit t && decide (7 ≤ t.length), t.contains '@' && t.contains '.')

/-- The two Persistence Gateway actions (query parameter `action=`). -/
inductive LeadAction where
  | saveLead : LeadAction
  | updateLead : LeadAction
deriving DecidableEq

/-- Python truthiness of `lead_id : str | None`: `None` and the empty string
are falsy. -/
def pyFalsyStr : Option (List Char) → Bool
  | none => true
  | some s => s.isEmpty

/-- The lifecycle control of `chat` (src/main.py lines 314-324): with a falsy
prior identifier, mint `fresh` with action `saveLead` only when contact is
detected; with a truthy prior identifier, keep it and always `updateLead`.
`fresh` stands for the `str(uuid.uuid4())` minted in the create branch. -/
def lifecycle_decide (prior : Option (List Char)) (fresh : List Char)
    (is_phone is_email : Bool) : Option (List Char) × Option LeadAction :=
  if pyFalsyStr prior then
    if is_phone || is_email then (some fresh, some .saveLead) else (prior, none)
  else
    (prior, some .updateLead)

/-- A chat message (pydantic model `Message`). -/
structure Message where
  role : List Char
  content : List Char
deriving DecidableEq

/-- The request body of `POST /chat` (pydantic model `ChatRequest`). -/
structure ChatRequest where
  session_id : List Char
  messages : List Message
  lead_id : Option (List Char)

/-- One attempted Persistence Gateway `requests.post` call, recording the
`action` query parameter and the payload fields the claims are about
(`created_at` is wall-clock and outside the claims). -/
structure GatewayCall where
  action : LeadAction
  lead_id : Option (List Char)
  extracted : Json
  conversation_log : List Message

/-- The successful response of `/chat`: the JSON body plus the trace of
gateway calls attempted while handling the request. -/
structure ChatOut where
  reply : List Char
  lead_id : Option (List Char)
  calls : List GatewayCall

/-- Failures of the `/chat` handler: the unguarded `request.messages[-1]`
on an empty list (`IndexError`), and a reply-generation failure propagating
out of `generate_ai_reply` (transport/quota error of the backend client). -/
inductive ChatErr where
  | indexError : ChatErr
  | backendError : ChatErr
deriving DecidableEq

/-- The `/chat` handler (src/main.py lines 282-351).  External effects are
parameters: `aiReply` is the outcome of `generate_ai_reply` (an uncaught
exception or the reply text), `extractRaw` the raw text returned by the
extraction backend inside `extract_lead_data`, `fresh` the UUID minted in the
create branch, and `gatewayOk` the outcome of the `requests.post` call --
which the handler swallows (`except Exception: pass`), so it is unused. -/
def chat (req : ChatRequest) (aiReply : Except Unit (List Char))
    (extractRaw : List Char) (fresh : List Char) (_gatewayOk : Bool) :
    Except ChatErr ChatOut :=
  match req.messages.getLast? with
  | none => .error .indexError
  | some lastMsg =>
    match aiReply with
    | .error _ => .error .backendError
    | .ok ai_reply =>
      let updated_messages := req.messages ++ [⟨"assistant".toList, ai_reply⟩]
      let extracted := ensure_dict (extract_lead_data extractRaw)
      let d := detect lastMsg.content
      let dec := lifecycle_decide req.lead_id fresh d.1 d.2
      let calls : List GatewayCall :=
        match dec.2 with
        | some a => [⟨a, dec.1, extracted, updated_messages⟩]
        | none => []
      .ok ⟨ai_reply, dec.1, calls⟩

end WpChatbot

namespace WpChatbot

/-- Helper: a nonempty list has a last element. -/
theorem exists_getLast? {α : Type} (l : List α) (h : l ≠ []) :
    ∃ a, l.getLast? = some a := by
  induction l with
  | nil => exact absurd rfl h
  | cons c t ih =>
    cases t with
    | nil => exact ⟨c, rfl⟩
    | cons d u =>
      obtain ⟨a, ha⟩ := ih (by simp)
      exact ⟨a, by rw [List.getLast?_cons_cons]; exact ha⟩

/-- C2: once an identity is established (a nonempty prior `lead_id`, as every
minted UUID is), the handler's lifecycle decision is `updateLead` with the
same identifier, regardless of the contact flags (which it no longer
consults) -- the identifier in the response and in the single gateway call is
exactly the one presented. -/
theorem chat_established_identity_updates
    (req : ChatRequest) (reply extractRaw fresh : List Char) (gw : Bool)
    (X : List Char) (out : ChatOut)
    (hX : req.lead_id = some X) (hne : X ≠ [])
    (h : chat req (.ok reply) extractRaw fresh gw = .ok out) :
    out.lead_id = some X
    ∧ out.calls.map GatewayCall.action = [.updateLead]
    ∧ out.calls.map GatewayCall.lead_id = [some X] := by
  have hfal : pyFalsyStr (some X) = false := by
    cases X with
    | nil => exact absurd rfl hne
    | cons c t => rfl
  cases hlast : req.messages.getLast? with
  | none => simp [chat, hlast] at h
  | some lastMsg =>
    simp only [chat, hlast, hX, lifecycle_decide, hfal, Bool.false_eq_true,
      if_false, Except.ok.injEq] at h
    subst h
    exact ⟨rfl, rfl, rfl⟩

/-- C2 witness: a concrete request with established identity. -/
theorem chat_established_identity_updates_witness :
    ∃ out, chat ⟨"s".toList, [⟨"user".toList, "hi".toList⟩], some ("X1".toList)⟩
        (.ok "ok".toList) "raw".toList "fresh".toList true = .ok out
      ∧ out.lead_id = some ("X1".toList)
      ∧ out.calls.map GatewayCall.action = [.updateLead] := by
  refine ⟨_, rfl, ?_⟩
  have h := chat_established_identity_updates
    ⟨"s".toList, [⟨"user".toList, "hi".toList⟩], some ("X1".toList)⟩
    "ok".toList "raw".toList "fresh".toList true ("X1".toList) _ rfl
    (by decide) rfl
  exact ⟨h.1, h.2.1⟩

/-- C3: with no prior identity, the handler persists nothing and assigns no
identifier when neither contact flag holds for the latest message, and mints
the fresh identifier with a single `saveLead` call when either flag holds. -/
theorem chat_no_identity_gates_on_contact
    (req : ChatRequest) (reply extractRaw fresh : List Char) (gw : Bool)
    (lastMsg : Message) (out : ChatOut)
    (hnone : req.lead_id = none)
    (hlast : req.messages.getLast? = some lastMsg)
    (h : chat req (.ok reply) extractRaw fresh gw = .ok out) :
    ((detect lastMsg.content).1 = false → (detect lastMsg.content).2 = false →
      out.lead_id = none ∧ out.calls = [])
    ∧ (((detect lastMsg.content).1 = true ∨ (detect lastMsg.content).2 = true) →
      out.lead_id = some fresh ∧ out.calls.map GatewayCall.action = [.saveLead]) := by
  constructor
  · intro hp he
    simp only [chat, hlast, hnone, lifecycle_decide, pyFalsyStr, hp, he,
      Bool.or_false, if_true, Bool.false_eq_true, if_false, Except.ok.injEq] at h
    subst h
    exact ⟨rfl, rfl⟩
  · intro hc
    have hor : ((detect lastMsg.content).1 || (detect lastMsg.content).2) = true := by
      rcases hc with hc | hc <;> simp [hc]
    simp only [chat, hlast, hnone, lifecycle_decide, pyFalsyStr, hor,
      if_true, Except.ok.injEq] at h
    subst h
    exact ⟨rfl, rfl⟩

/-- C3 witness: a digit-only latest message mints an identity; a plain
message does not. -/
theorem chat_no_identity_gates_on_contact_witness :
    ∃ out, chat ⟨"s".toList, [⟨"user".toList, "hello".toList⟩], none⟩
        (.ok "ok".toList) "raw".toList "fresh".toList true = .ok out
      ∧ out.lead_id = none ∧ out.calls = [] := by
  refine ⟨_, rfl, ?_⟩
  exact (chat_no_identity_gates_on_contact
    ⟨"s".toList, [⟨"user".toList, "hello".toList⟩], none⟩
    "ok".toList "raw".toList "fresh".toList true ⟨"user".toList, "hello".toList⟩
    _ rfl rfl rfl).1 (by decide) (by decide)

/-- C10: the handler reads `request.messages[-1]` without a guard, so an
empty transcript fails with `IndexError` before reply generation, extraction
or persistence can occur (the result does not depend on any of the external
outcomes). -/
theorem chat_empty_messages_fails
    (req : ChatRequest) (aiR : Except Unit (List Char))
    (extractRaw fresh : List Char) (gw : Bool)
    (h : req.messages = []) :
    chat req aiR extractRaw fresh gw = .error .indexError := by
  simp [chat, h]

/-- C10 witness. -/
theorem chat_empty_messages_fails_witness :
    chat ⟨"s".toList, [], none⟩ (.ok "ok".toList) "raw".toList "fresh".toList true
      = .error .indexError :=
  chat_empty_messages_fails ⟨"s".toList, [], none⟩ (.ok "ok".toList)
    "raw".toList "fresh".toList true rfl

/-- C8: a reply-generation failure propagates: the whole request fails, with
no fallback reply, no gateway call and no response body (modelled by the
`Except.error` result, which carries no reply and no call trace). -/
theorem chat_backend_failure_propagates
    (req : ChatRequest) (extractRaw fresh : List Char) (gw : Bool) :
    (∃ e, chat req (.error ()) extractRaw fresh gw = .error e)
    ∧ (req.messages ≠ [] →
        chat req (.error ()) extractRaw fresh gw = .error .backendError) := by
  constructor
  · cases hlast : req.messages.getLast? with
    | none => exact ⟨.indexError, by simp [chat, hlast]⟩
    | some m => exact ⟨.backendError, by simp [chat, hlast]⟩
  · intro hne
    obtain ⟨m, hm⟩ := exists_getLast? req.messages hne
    simp [chat, hm]

/-- C8 witness. -/
theorem chat_backend_failure_propagates_witness :
    chat ⟨"s".toList, [⟨"user".toList, "hi".toList⟩], none⟩ (.error ())
      "raw".toList "fresh".toList true = .error .backendError :=
  (chat_backend_failure_propagates ⟨"s".toList, [⟨"user".toList, "hi".toList⟩], none⟩
    "raw".toList "fresh".toList true).2 (by decide)

/-- C7: the gateway outcome is invisible: the handler's result is identical
whatever the persistence call returns, and a successful request always
carries the generated reply and the lifecycle-decided identifier, with at
most one gateway call attempted. -/
theorem chat_gateway_outcome_invisible
    (req : ChatRequest) (reply extractRaw fresh : List Char) (gw gw' : Bool) :
    chat req (.ok reply) extractRaw fresh gw = chat req (.ok reply) extractRaw fresh gw'
    ∧ (∀ lastMsg out, req.messages.getLast? = some lastMsg →
        chat req (.ok reply) extractRaw fresh gw = .ok out →
        out.reply = reply
        ∧ out.lead_id = (lifecycle_decide req.lead_id fresh
            (detect lastMsg.content).1 (detect lastMsg.content).2).1
        ∧ out.calls.length ≤ 1) := by
  refine ⟨rfl, ?_⟩
  intro lastMsg out hlast h
  simp only [chat, hlast, Except.ok.injEq] at h
  subst h
  refine ⟨rfl, rfl, ?_⟩
  cases (lifecycle_decide req.lead_id fresh
      (detect lastMsg.content).1 (detect lastMsg.content).2).2 <;> simp

/-- C7 witness. -/
theorem chat_gateway_outcome_invisible_witness :
    ∃ out, chat ⟨"s".toList, [⟨"user".toList, "hi".toList⟩], some ("X".toList)⟩
        (.ok "ok".toList) "raw".toList "fresh".toList true = .ok out
      ∧ out.reply = "ok".toList ∧ out.calls.length ≤ 1 := by
  refine ⟨_, rfl, ?_⟩
  have h := (chat_gateway_outcome_invisible
    ⟨"s".toList, [⟨"user".toList, "hi".toList⟩], some ("X".toList)⟩
    "ok".toList "raw".toList "fresh".toList true false).2
    ⟨"user".toList, "hi".toList⟩ _ rfl rfl
  exact ⟨h.1, h.2.2⟩

/-- C9: an empty-string prior `lead_id` is falsy in Python, so the
no-identity branch runs: the action is the same as with a null identifier
(never `updateLead`), and contact detection mints the fresh identifier with
action `saveLead` even though the caller presented a non-null identifier. -/
theorem empty_lead_id_like_null (fresh : List Char) (p e : Bool) :
    (lifecycle_decide (some []) fresh p e).2 = (lifecycle_decide none fresh p e).2
    ∧ ((p || e) = true →
        lifecycle_decide (some []) fresh p e = (some fresh, some .saveLead))
    ∧ (lifecycle_decide (some []) fresh p e).2 ≠ some LeadAction.updateLead := by
  cases p <;> cases e <;> simp [lifecycle_decide, pyFalsyStr]

/-- C9 witness: a phone-bearing turn with an empty-string prior id mints. -/
theorem empty_lead_id_like_null_witness :
    lifecycle_decide (some []) ("u".toList) true false
      = (some ("u".toList), some .saveLead) :=
  (empty_lead_id_like_null ("u".toList) true false).2.1 rfl

/-- C4: contact detection is a pure function of the trimmed latest message:
`is_phone` holds iff it is all digits with length at least 7, `is_email`
holds iff it contains both an at sign and a dot; with the claim's concrete
examples. -/
theorem detect_contact_rules (s : List Char) :
    ((detect s).1 = true ↔
      ((∀ c ∈ pyStrip s, c.isDigit = true) ∧ 7 ≤ (pyStrip s).length))
    ∧ ((detect s).2 = true ↔ ('@' ∈ pyStrip s ∧ '.' ∈ pyStrip s))
    ∧ detect ("5551234567".toList) = (true, false)
    ∧ detect ("555-123-4567".toList) = (false, false)
    ∧ detect ("a@b.com".toList) = (false, true)
    ∧ detect ("hello".toList) = (false, false) := by
  refine ⟨?_, ?_, by rfl, by rfl, by rfl, by rfl⟩
  · simp only [detect, pyIsDigit, Bool.and_eq_true, Bool.not_eq_true',
      List.all_eq_true, decide_eq_true_eq]
    constructor
    · rintro ⟨⟨-, hall⟩, hlen⟩
      exact ⟨hall, hlen⟩
    · rintro ⟨hall, hlen⟩
      refine ⟨⟨?_, hall⟩, hlen⟩
      cases hs : pyStrip s with
      | nil => rw [hs] at hlen; simp at hlen
      | cons c t => rfl
  · simp only [detect, Bool.and_eq_true, List.contains, List.elem_iff]

/-- C4 witness: the all-digit rule instantiated at the claim's example. -/
theorem detect_contact_rules_witness :
    (detect ("5551234567".toList)).1 = true :=
  (detect_contact_rules ("5551234567".toList)).1.mpr ⟨by decide, by decide⟩

/-- C1 counterexample: when the backend returns the JSON array `[]`, the
record used downstream is the empty dict, not the fixed fallback record. -/
theorem extractor_empty_list_not_fallback :
    extract_json_from_text ("[]".toList) = .ok (.arr [])
    ∧ ensure_dict (extract_lead_data ("[]".toList)) = .obj []
    ∧ Json.obj [] ≠ fallbackLead := by
  refine ⟨rfl, rfl, ?_⟩
  intro h
  simp [fallbackLead] at h

/-- C1 amended: the normalized record is always object-shaped and no error
reaches the caller; a salvage failure yields the fully-populated fallback; a
sequence collapses to its first element when that is object-shaped and to the
empty record otherwise; an object result is kept as is; and a result that is
not object-shaped at all (and not a sequence, e.g. a bare scalar) becomes the
empty record, not the fallback. -/
theorem extractor_normalization_total (raw : List Char) :
    (∃ kvs, ensure_dict (extract_lead_data raw) = Json.obj kvs)
    ∧ (∀ e, extract_json_from_text raw = .error e →
        extract_lead_data raw = fallbackLead)
    ∧ (∀ x xs, extract_json_from_text raw = .ok (.arr (x :: xs)) →
        ensure_dict (extract_lead_data raw)
          = match x with | .obj kvs => .obj kvs | _ => .obj [])
    ∧ (extract_json_from_text raw = .ok (.arr []) →
        ensure_dict (extract_lead_data raw) = .obj [])
    ∧ (∀ kvs, extract_json_from_text raw = .ok (.obj kvs) →
        ensure_dict (extract_lead_data raw) = .obj kvs)
    ∧ (∀ v, extract_json_from_text raw = .ok v →
        (∀ xs, v ≠ Json.arr xs) → (∀ kvs, v ≠ Json.obj kvs) →
        ensure_dict (extract_lead_data raw) = .obj []) := by
  cases hE : extract_json_from_text raw with
  | error e =>
    have hld : extract_lead_data raw = fallbackLead := by
      simp [extract_lead_data, hE]
    exact ⟨⟨_, by rw [hld]; rfl⟩, fun _ _ => hld,
      fun x xs hx => Except.noConfusion hx,
      fun hx => Except.noConfusion hx,
      fun kvs hx => Except.noConfusion hx,
      fun w hx _ _ => Except.noConfusion hx⟩
  | ok v =>
    have hld : extract_lead_data raw = v := by simp [extract_lead_data, hE]
    have hobj : ∃ kvs, ensure_dict (extract_lead_data raw) = Json.obj kvs := by
      rw [hld]
      cases v with
      | arr xs =>
        cases xs with
        | nil => exact ⟨[], rfl⟩
        | cons x t => cases x <;> exact ⟨_, rfl⟩
      | obj kvs => exact ⟨kvs, rfl⟩
      | null => exact ⟨[], rfl⟩
      | bool b => exact ⟨[], rfl⟩
      | num n => exact ⟨[], rfl⟩
      | str s => exact ⟨[], rfl⟩
    refine ⟨hobj, fun e he => Except.noConfusion he,
      fun x xs hx => ?_, fun hx => ?_, fun kvs hx => ?_, fun w hx hnarr hnobj => ?_⟩
    · have hv : v = .arr (x :: xs) := by injection hx
      rw [hld, hv]
      cases x <;> rfl
    · have hv : v = .arr [] := by injection hx
      rw [hld, hv]
      rfl
    · have hv : v = .obj kvs := by injection hx
      rw [hld, hv]
      rfl
    · have hv : v = w := by injection hx
      rw [hld, hv]
      cases w with
      | arr xs => exact absurd rfl (hnarr xs)
      | obj kvs => exact absurd rfl (hnobj kvs)
      | null => rfl
      | bool b => rfl
      | num n => rfl
      | str s => rfl

/-- C1 amended witness: the `[]` output normalizes to the empty record, and
so does a bare scalar output such as `5` -- neither is the fallback. -/
theorem extractor_normalization_total_witness :
    ensure_dict (extract_lead_data ("[]".toList)) = .obj []
    ∧ ensure_dict (extract_lead_data ("5".toList)) = .obj [] :=
  ⟨(extractor_normalization_total ("[]".toList)).2.2.2.1 rfl,
   (extractor_normalization_total ("5".toList)).2.2.2.2.2 (Json.num 5) rfl
     (fun _ h => Json.noConfusion h) (fun _ h => Json.noConfusion h)⟩

/-- Dropping leading whitespace fixes a list with a non-space head. -/
theorem ldrop_cons_neg {c : Char} (l : List Char) (h : isWs c = false) :
    ldrop (c :: l) = c :: l := by
  simp [ldrop, List.dropWhile_cons, h]

/-- Dropping leading whitespace steps over a space head. -/
theorem ldrop_cons_pos {c : Char} (l : List Char) (h : isWs c = true) :
    ldrop (c :: l) = ldrop l := by
  simp [ldrop, List.dropWhile_cons, h]

/-- The head remaining after `ldrop` is never whitespace. -/
theorem ldrop_head_neg {l : List Char} {c : Char} {t : List Char}
    (h : ldrop l = c :: t) : isWs c = false := by
  induction l with
  | nil => exact absurd h (by simp [ldrop])
  | cons d u ih =>
    cases hd : isWs d with
    | true => exact ih (by rwa [ldrop_cons_pos u hd] at h)
    | false =>
      rw [ldrop_cons_neg u hd] at h
      injection h with h1 _
      rw [← h1]
      exact hd

/-- `ldrop` fixes lists whose head is not whitespace. -/
theorem ldrop_eq_self {l : List Char}
    (h : ∀ c t, l = c :: t → isWs c = false) : ldrop l = l := by
  cases l with
  | nil => rfl
  | cons c t => exact ldrop_cons_neg t (h c t rfl)

/-- `rdrop` fixes lists whose last element is not whitespace. -/
theorem rdrop_eq_self {l : List Char}
    (h : ∀ c, l.getLast? = some c → isWs c = false) : rdrop l = l := by
  have h2 : ldrop l.reverse = l.reverse := by
    apply ldrop_eq_self
    intro c t hct
    apply h
    rw [← List.head?_reverse, hct]
    rfl
  show (l.reverse.dropWhile isWs).reverse = l
  rw [show l.reverse.dropWhile isWs = ldrop l.reverse from rfl, h2,
    List.reverse_reverse]

/-- `pyStrip` fixes lists with non-space first and last elements. -/
theorem pyStrip_eq_self {l : List Char}
    (h1 : ∀ c t, l = c :: t → isWs c = false)
    (h2 : ∀ c, l.getLast? = some c → isWs c = false) : pyStrip l = l := by
  unfold pyStrip
  rw [ldrop_eq_self h1, rdrop_eq_self h2]

/-- Stripping absorbs a leading whitespace character. -/
theorem pyStrip_cons_ws {c : Char} (l : List Char) (h : isWs c = true) :
    pyStrip (c :: l) = pyStrip l := by
  unfold pyStrip
  rw [ldrop_cons_pos l h]

/-- `rdrop` absorbs a trailing whitespace character. -/
theorem rdrop_append_ws {c : Char} (l : List Char) (h : isWs c = true) :
    rdrop (l ++ [c]) = rdrop l := by
  unfold rdrop
  rw [List.reverse_append]
  simp [List.dropWhile_cons, h]

/-- `ldrop` passes over an all-whitespace block. -/
theorem ldrop_append_of_eq_nil {l : List Char} (m : List Char)
    (h : ldrop l = []) : ldrop (l ++ m) = ldrop m := by
  induction l with
  | nil => rfl
  | cons c t ih =>
    cases hc : isWs c with
    | true =>
      rw [List.cons_append, ldrop_cons_pos _ hc]
      exact ih (by rwa [ldrop_cons_pos t hc] at h)
    | false =>
      rw [ldrop_cons_neg t hc] at h
      exact List.noConfusion h

/-- `ldrop` of an append whose left part survives. -/
theorem ldrop_append_cons {l : List Char} {d : Char} {t : List Char}
    (m : List Char) (h : ldrop l = d :: t) :
    ldrop (l ++ m) = d :: (t ++ m) := by
  induction l with
  | nil => exact absurd h (by simp [ldrop])
  | cons c u ih =>
    cases hc : isWs c with
    | true =>
      rw [List.cons_append, ldrop_cons_pos _ hc]
      exact ih (by rwa [ldrop_cons_pos u hc] at h)
    | false =>
      rw [ldrop_cons_neg u hc] at h
      injection h with h1 h2
      subst h1
      subst h2
      rw [List.cons_append, ldrop_cons_neg _ hc]

/-- Stripping absorbs a trailing whitespace character. -/
theorem pyStrip_append_ws {c : Char} (l : List Char) (h : isWs c = true) :
    pyStrip (l ++ [c]) = pyStrip l := by
  unfold pyStrip
  cases hl : ldrop l with
  | nil =>
    rw [ldrop_append_of_eq_nil [c] hl, ldrop_cons_pos [] h]
    rfl
  | cons d t =>
    rw [ldrop_append_cons [c] hl]
    rw [show d :: (t ++ [c]) = (d :: t) ++ [c] from rfl, rdrop_append_ws _ h]

/-- `ldrop` is idempotent. -/
theorem ldrop_idem (l : List Char) : ldrop (ldrop l) = ldrop l := by
  cases hl : ldrop l with
  | nil => rfl
  | cons c t => exact ldrop_cons_neg t (ldrop_head_neg hl)

/-- `rdrop` is idempotent. -/
theorem rdrop_idem (l : List Char) : rdrop (rdrop l) = rdrop l := by
  show rdrop ((l.reverse.dropWhile isWs).reverse) = rdrop l
  unfold rdrop
  rw [List.reverse_reverse]
  rw [show List.dropWhile isWs (l.reverse.dropWhile isWs)
      = ldrop (ldrop l.reverse) from rfl, ldrop_idem]
  rfl

/-- `rdrop` yields a prefix of its argument. -/
theorem rdrop_isPre (l : List Char) : rdrop l <+: l := by
  have h := List.dropWhile_suffix (l := l.reverse) isWs
  have h2 := List.reverse_prefix.mpr h
  rwa [List.reverse_reverse] at h2

/-- `ldrop` after `rdrop` after `ldrop` does nothing new. -/
theorem ldrop_rdrop (l : List Char) :
    ldrop (rdrop (ldrop l)) = rdrop (ldrop l) := by
  cases hx : rdrop (ldrop l) with
  | nil => rfl
  | cons c t =>
    apply ldrop_cons_neg
    have hpre : rdrop (ldrop l) <+: ldrop l := rdrop_isPre (ldrop l)
    rw [hx] at hpre
    obtain ⟨r, hr⟩ := hpre
    exact ldrop_head_neg (show ldrop l = c :: (t ++ r) from by rw [← hr]; rfl)

/-- Python `strip` is idempotent. -/
theorem pyStrip_idem (l : List Char) : pyStrip (pyStrip l) = pyStrip l := by
  show rdrop (ldrop (rdrop (ldrop l))) = rdrop (ldrop l)
  rw [ldrop_rdrop, rdrop_idem]

/-- `json.loads` ignores surrounding whitespace, so pre-stripping is
invisible to it. -/
theorem json_loads_pyStrip (l : List Char) :
    json_loads (pyStrip l) = json_loads l := by
  simp only [json_loads, pyStrip_idem]

/-- `str.find` misses an absent character. -/
theorem find_eq_none {c : Char} {l : List Char} (h : c ∉ l) :
    find c l = none := by
  induction l with
  | nil => rfl
  | cons d t ih =>
    rw [find,
      if_neg (show ¬(d = c) from
        fun hdc => h (by rw [hdc]; exact List.mem_cons_self c t)),
      ih (fun hm => h (List.mem_cons_of_mem d hm))]
    rfl

/-- `str.find` locates the first occurrence just past a block without it. -/
theorem find_append_cons {c : Char} {a : List Char} (b : List Char)
    (h : c ∉ a) : find c (a ++ c :: b) = some a.length := by
  induction a with
  | nil => simp [find]
  | cons d t ih =>
    rw [List.cons_append, find,
      if_neg (show ¬(d = c) from
        fun hdc => h (by rw [hdc]; exact List.mem_cons_self c t)),
      ih (fun hm => h (List.mem_cons_of_mem d hm))]
    rfl

/-- Members of the stripped list are members of the original. -/
theorem mem_pyStrip {c : Char} {l : List Char} (h : c ∈ pyStrip l) :
    c ∈ l := by
  have h1 : rdrop (ldrop l) ⊆ ldrop l := (rdrop_isPre (ldrop l)).subset
  have h2 : ldrop l ⊆ l := (List.dropWhile_suffix isWs).subset
  exact h2 (h1 h)

/-- Unfolding equation of `replaceF` at a successor fuel on a cons cell. -/
theorem replaceF_succ_cons (f : Nat) (c : Char) (rest pat rep : List Char) :
    replaceF (f + 1) (c :: rest) pat rep =
      if pat.isPrefixOf (c :: rest) && !pat.isEmpty then
        rep ++ replaceF f ((c :: rest).drop pat.length) pat rep
      else
        c :: replaceF f rest pat rep := rfl

/-- `replaceF` on the empty list is empty at any fuel. -/
theorem replaceF_any_nil (f : Nat) (pat rep : List Char) :
    replaceF f [] pat rep = [] := by
  cases f with
  | zero => rfl
  | succ g => rfl

/-- An occurrence inside a cons is either a prefix there or an occurrence in
the tail. -/
theorem isInfix_cons_cases {l₁ l₂ : List Char} {a : Char}
    (h : l₁ <:+: (a :: l₂)) : l₁ <+: (a :: l₂) ∨ l₁ <:+: l₂ := by
  obtain ⟨s, t, hst⟩ := h
  cases s with
  | nil => exact Or.inl ⟨t, by simpa using hst⟩
  | cons b s' =>
    right
    simp only [List.cons_append] at hst
    injection hst with _ h2
    exact ⟨s', t, h2⟩

/-- A fence-free payload stays fence-free after prepending the newline that
separates it from the opening fence. -/
theorem not_ticks3_newline_cons {content : List Char}
    (h : ¬ (ticks3 <:+: content)) : ¬ (ticks3 <:+: ('\n' :: content)) := by
  intro hin
  rcases isInfix_cons_cases hin with hpre | hin2
  · obtain ⟨r, hr⟩ := hpre
    simp only [show ticks3 = '`' :: '`' :: '`' :: [] from rfl,
      List.cons_append, List.nil_append] at hr
    injection hr with h1 _
    exact absurd h1 (by decide)
  · exact h hin2

/-- Scanning a fence-free block followed by the closing fence, replacement of
the three-backtick marker erases exactly the closing fence. -/
theorem replaceF_ticks_tail (s : List Char) :
    ∀ f, s.length + 4 ≤ f → ¬ (ticks3 <:+: s) →
      replaceF f (s ++ '\n' :: ticks3) ticks3 [] = s ++ ['\n'] := by
  induction s with
  | nil =>
    intro f hf _
    obtain ⟨f4, rfl⟩ : ∃ f4, f = f4 + 4 := ⟨f - 4, by omega⟩
    show replaceF (f4 + 3 + 1) ('\n' :: ('`' :: '`' :: '`' :: []))
      ('`' :: '`' :: '`' :: []) [] = ['\n']
    rw [replaceF_succ_cons, if_neg (by decide)]
    rw [show f4 + 3 = f4 + 2 + 1 from rfl, replaceF_succ_cons, if_pos (by decide)]
    show '\n' :: ([] ++ replaceF (f4 + 2) [] ('`' :: '`' :: '`' :: []) []) = ['\n']
    rw [replaceF_any_nil]
    rfl
  | cons c s' ih =>
    intro f hf h
    obtain ⟨f', rfl⟩ : ∃ f', f = f' + 1 := ⟨f - 1, by omega⟩
    show replaceF (f' + 1) (c :: (s' ++ '\n' :: ticks3)) ticks3 [] = c :: (s' ++ ['\n'])
    rw [replaceF_succ_cons]
    have hcond :
        (ticks3.isPrefixOf (c :: (s' ++ '\n' :: ticks3)) && !ticks3.isEmpty) = false := by
      cases hP : ticks3.isPrefixOf (c :: (s' ++ '\n' :: ticks3)) with
      | false => rfl
      | true =>
        exfalso
        obtain ⟨r, hr⟩ := List.isPrefixOf_iff_prefix.mp hP
        cases s' with
        | nil =>
          simp only [show ticks3 = '`' :: '`' :: '`' :: [] from rfl,
            List.cons_append, List.nil_append] at hr
          injection hr with h1 hr
          injection hr with h2 hr
          exact absurd h2 (by decide)
        | cons d s'' =>
          cases s'' with
          | nil =>
            simp only [show ticks3 = '`' :: '`' :: '`' :: [] from rfl,
              List.cons_append, List.nil_append] at hr
            injection hr with h1 hr
            injection hr with h2 hr
            injection hr with h3 hr
            exact absurd h3 (by decide)
          | cons e s''' =>
            simp only [show ticks3 = '`' :: '`' :: '`' :: [] from rfl,
              List.cons_append, List.nil_append] at hr
            injection hr with h1 hr
            injection hr with h2 hr
            injection hr with h3 hr
            exact h ⟨[], s''', by rw [← h1, ← h2, ← h3]; rfl⟩
    rw [if_neg (show ¬(_ = true) from by rw [hcond]; exact Bool.false_ne_true)]
    have hf' : s'.length + 4 ≤ f' := by
      simp only [List.length_cons] at hf
      omega
    rw [ih f' hf' (fun hin => h (List.infix_cons hin))]

/-- Scanning a fence-free block followed by the closing fence, replacement of
the seven-character tagged fence token finds no occurrence at all. -/
theorem replaceF_keep_fencejson (s : List Char) :
    ∀ f, s.length + 4 ≤ f → ¬ (ticks3 <:+: s) →
      replaceF f (s ++ '\n' :: ticks3) fenceJson [] = s ++ '\n' :: ticks3 := by
  induction s with
  | nil =>
    intro f hf _
    obtain ⟨f4, rfl⟩ : ∃ f4, f = f4 + 4 := ⟨f - 4, by omega⟩
    show replaceF (f4 + 3 + 1) ('\n' :: ('`' :: '`' :: '`' :: []))
      fenceJson [] = '\n' :: ('`' :: '`' :: '`' :: [])
    rw [replaceF_succ_cons, if_neg (by decide)]
    rw [show f4 + 3 = f4 + 2 + 1 from rfl, replaceF_succ_cons, if_neg (by decide)]
    rw [show f4 + 2 = f4 + 1 + 1 from rfl, replaceF_succ_cons, if_neg (by decide)]
    rw [show f4 + 1 = f4 + 0 + 1 from rfl, replaceF_succ_cons, if_neg (by decide)]
    rw [replaceF_any_nil]
  | cons c s' ih =>
    intro f hf h
    obtain ⟨f', rfl⟩ : ∃ f', f = f' + 1 := ⟨f - 1, by omega⟩
    show replaceF (f' + 1) (c :: (s' ++ '\n' :: ticks3)) fenceJson []
      = c :: (s' ++ '\n' :: ticks3)
    rw [replaceF_succ_cons]
    have hcond :
        (fenceJson.isPrefixOf (c :: (s' ++ '\n' :: ticks3)) && !fenceJson.isEmpty) = false := by
      cases hP : fenceJson.isPrefixOf (c :: (s' ++ '\n' :: ticks3)) with
      | false => rfl
      | true =>
        exfalso
        obtain ⟨r, hr⟩ := List.isPrefixOf_iff_prefix.mp hP
        cases s' with
        | nil =>
          simp only [show fenceJson
              = '`' :: '`' :: '`' :: 'j' :: 's' :: 'o' :: 'n' :: [] from rfl,
            show ticks3 = '`' :: '`' :: '`' :: [] from rfl,
            List.cons_append, List.nil_append] at hr
          injection hr with h1 hr
          injection hr with h2 hr
          exact absurd h2 (by decide)
        | cons d s'' =>
          cases s'' with
          | nil =>
            simp only [show fenceJson
                = '`' :: '`' :: '`' :: 'j' :: 's' :: 'o' :: 'n' :: [] from rfl,
              show ticks3 = '`' :: '`' :: '`' :: [] from rfl,
              List.cons_append, List.nil_append] at hr
            injection hr with h1 hr
            injection hr with h2 hr
            injection hr with h3 hr
            exact absurd h3 (by decide)
          | cons e s''' =>
            simp only [show fenceJson
                = '`' :: '`' :: '`' :: 'j' :: 's' :: 'o' :: 'n' :: [] from rfl,
              List.cons_append, List.nil_append] at hr
            injection hr with h1 hr
            injection hr with h2 hr
            injection hr with h3 hr
            exact h ⟨[], s''', by rw [← h1, ← h2, ← h3]; rfl⟩
    rw [if_neg (show ¬(_ = true) from by rw [hcond]; exact Bool.false_ne_true)]
    have hf' : s'.length + 4 ≤ f' := by
      simp only [List.length_cons] at hf
      omega
    rw [ih f' hf' (fun hin => h (List.infix_cons hin))]

/-- First replacement pass of the salvage parser on a fenced block: the
tagged opening fence is consumed and nothing else changes. -/
theorem replace_wrapJson_fencejson (content : List Char)
    (h : ¬ (ticks3 <:+: content)) :
    replace (wrapJson content) fenceJson [] = '\n' :: (content ++ '\n' :: ticks3) := by
  unfold replace
  have hlen : (wrapJson content).length = content.length + 11 + 1 := by
    simp only [wrapJson, List.length_append, List.length_cons, fenceJson, ticks3,
      List.length_nil]
    omega
  rw [hlen]
  show replaceF (content.length + 11 + 1)
      ('`' :: ('`' :: '`' :: 'j' :: 's' :: 'o' :: 'n' :: ('\n' :: content ++ '\n' :: ticks3)))
      fenceJson [] = '\n' :: (content ++ '\n' :: ticks3)
  rw [replaceF_succ_cons]
  rw [if_pos (show _ = true from by
    rw [Bool.and_eq_true]
    exact ⟨ List.isPrefixOf_iff_prefix.mpr ⟨'\n' :: content ++ '\n' :: ticks3, rfl⟩,
      by decide⟩)]
  show [] ++ replaceF (content.length + 11) (('\n' :: content) ++ '\n' :: ticks3)
      fenceJson [] = '\n' :: (content ++ '\n' :: ticks3)
  rw [replaceF_keep_fencejson ('\n' :: content) (content.length + 11)
    (by simp only [List.length_cons]; omega) (not_ticks3_newline_cons h)]
  rfl

/-- Second replacement pass of the salvage parser on a fenced block: the
closing fence is consumed and nothing else changes. -/
theorem replace_ticks_second (content : List Char)
    (h : ¬ (ticks3 <:+: content)) :
    replace ('\n' :: (content ++ '\n' :: ticks3)) ticks3 []
      = '\n' :: (content ++ ['\n']) := by
  unfold replace
  have hlen : ('\n' :: (content ++ '\n' :: ticks3)).length = content.length + 5 := by
    simp only [List.length_cons, List.length_append, ticks3, List.length_nil]
  rw [hlen]
  show replaceF (content.length + 5) (('\n' :: content) ++ '\n' :: ticks3)
      ticks3 [] = ('\n' :: content) ++ ['\n']
  exact replaceF_ticks_tail ('\n' :: content) (content.length + 5)
    (by simp only [List.length_cons]; omega) (not_ticks3_newline_cons h)

/-- C5 amended: for a JSON object wrapped in a fenced block with a `json`
tag, salvage returns the object obtained by parsing the unwrapped content
directly -- provided the content itself contains no fence marker, since the
global `replace` would otherwise also delete fence markers inside the
payload. -/
theorem salvage_fenced_roundtrip (content : List Char)
    (o : List (List Char × Json))
    (hp : json_loads content = some (Json.obj o))
    (hf : ¬ (ticks3 <:+: content)) :
    extract_json_from_text (wrapJson content) = .ok (Json.obj o) := by
  have hne : wrapJson content ≠ [] := by simp [wrapJson, fenceJson]
  have hstrip : pyStrip (wrapJson content) = wrapJson content := by
    apply pyStrip_eq_self
    · intro c t hct
      rw [show wrapJson content
          = '`' :: ('`' :: '`' :: 'j' :: 's' :: 'o' :: 'n'
            :: ('\n' :: content ++ '\n' :: ticks3)) from rfl] at hct
      injection hct with h1 _
      rw [← h1]
      decide
    · intro c hc
      have hsh : wrapJson content
          = (fenceJson ++ '\n' :: (content ++ ['\n', '`', '`'])) ++ ['`'] := by
        simp [wrapJson, ticks3]
      rw [hsh, List.getLast?_concat] at hc
      injection hc with h1
      rw [← h1]
      decide
  have hpre : ticks3.isPrefixOf (wrapJson content) = true := by
    rw [ List.isPrefixOf_iff_prefix]
    exact ⟨'j' :: 's' :: 'o' :: 'n' :: ('\n' :: content ++ '\n' :: ticks3), rfl⟩
  have hrepl : pyStrip (replace (replace (wrapJson content) fenceJson []) ticks3 [])
      = pyStrip content := by
    rw [replace_wrapJson_fencejson content hf, replace_ticks_second content hf]
    rw [pyStrip_cons_ws _ (by decide)]
    exact pyStrip_append_ws content (by decide)
  simp only [extract_json_from_text]
  rw [if_neg hne, hstrip, hpre, if_pos rfl, hrepl, json_loads_pyStrip, hp]

/-- C5 witness: a fenced plain object round-trips. -/
theorem salvage_fenced_roundtrip_witness :
    extract_json_from_text (wrapJson ("\x7b\"a\":1\x7d".toList))
      = .ok (Json.obj [("a".toList, Json.num 1)]) :=
  salvage_fenced_roundtrip ("\x7b\"a\":1\x7d".toList) [("a".toList, Json.num 1)]
    (by rfl) (by decide)

/-- C5 counterexample: a fenced JSON object whose string payload contains a
fence marker does not round-trip -- the global replace deletes the marker
inside the string, so salvage returns a different object than parsing the
unwrapped content directly. -/
theorem salvage_fenced_roundtrip_counterexample :
    json_loads ("\x7b\"a\": \"x```y\"\x7d".toList)
      = some (Json.obj [("a".toList, Json.str "x```y".toList)])
    ∧ extract_json_from_text (wrapJson ("\x7b\"a\": \"x```y\"\x7d".toList))
      = .ok (Json.obj [("a".toList, Json.str "xy".toList)])
    ∧ Json.obj [("a".toList, Json.str "x```y".toList)]
      ≠ Json.obj [("a".toList, Json.str "xy".toList)] := by
  refine ⟨rfl, rfl, ?_⟩
  intro hEq
  have h2 := congrArg (fun j => match j with
    | Json.obj ((_, Json.str s) :: _) => s.length
    | _ => 0) hEq
  exact absurd h2 (by decide)

/-- `ldrop` distributes over an append whose right block starts non-space. -/
theorem ldrop_append_cons_head {c : Char} (hc : isWs c = false) :
    ∀ (pre rest : List Char), ldrop (pre ++ c :: rest) = ldrop pre ++ c :: rest := by
  intro pre rest
  induction pre with
  | nil =>
    simp only [List.nil_append]
    exact ldrop_cons_neg rest hc
  | cons d u ih =>
    cases hd : isWs d with
    | true =>
      rw [List.cons_append, ldrop_cons_pos _ hd, ih, ldrop_cons_pos u hd]
    | false =>
      rw [List.cons_append, ldrop_cons_neg _ hd, ldrop_cons_neg u hd,
        List.cons_append]

/-- `rdrop` distributes over an append whose left block ends non-space. -/
theorem rdrop_append_last {y : List Char} {d : Char}
    (hl : y.getLast? = some d) (hd : isWs d = false) (post : List Char) :
    rdrop (y ++ post) = y ++ rdrop post := by
  obtain ⟨yr, hyr⟩ : ∃ yr, y.reverse = d :: yr := by
    cases hyr : y.reverse with
    | nil =>
      have hy : y = [] := by rw [← List.reverse_reverse y, hyr]; rfl
      rw [hy] at hl
      exact Option.noConfusion hl
    | cons e yr =>
      have he : y.reverse.head? = some e := by rw [hyr]; rfl
      rw [List.head?_reverse, hl] at he
      injection he with he'
      exact ⟨yr, by rw [he']⟩
  show ((y ++ post).reverse.dropWhile isWs).reverse = y ++ rdrop post
  rw [List.reverse_append, hyr]
  rw [show List.dropWhile isWs (post.reverse ++ d :: yr)
      = ldrop (post.reverse ++ d :: yr) from rfl]
  rw [ldrop_append_cons_head hd post.reverse yr]
  rw [List.reverse_append, ← hyr, List.reverse_reverse]
  rfl

/-- Stripping a prose-wrapped block strips only the outer prose edges. -/
theorem pyStrip_mid {m : List Char} {hc lc : Char}
    (hhead : m.head? = some hc) (hwc : isWs hc = false)
    (hlast : m.getLast? = some lc) (hwl : isWs lc = false)
    (pre post : List Char) :
    pyStrip (pre ++ m ++ post) = ldrop pre ++ (m ++ rdrop post) := by
  obtain ⟨t, rfl⟩ : ∃ t, m = hc :: t := by
    cases m with
    | nil => exact Option.noConfusion hhead
    | cons a u => injection hhead with h1; exact ⟨u, by rw [h1]⟩
  have hl2 : (ldrop pre ++ hc :: t).getLast? = some lc := by
    rw [List.getLast?_append, hlast]
    rfl
  rw [show (pre ++ (hc :: t)) ++ post = pre ++ (hc :: (t ++ post)) from by simp]
  unfold pyStrip
  rw [ldrop_append_cons_head hwc pre (t ++ post)]
  rw [show ldrop pre ++ hc :: (t ++ post) = (ldrop pre ++ hc :: t) ++ post from by simp]
  rw [rdrop_append_last hl2 hwl post]
  simp

/-- C6 amended: salvage recovers a JSON object surrounded by brace-free
prose when the trimmed text does not itself start with a code fence (whose
global replacement could alter the object) and does not parse as a JSON
document outright; and salvage fails exactly on the empty text or when the
(fence-free) text is not a JSON document and lacks an opening or closing
brace. -/
theorem salvage_prose_amended :
    (∀ pre objtext post (o : List (List Char × Json)),
      json_loads objtext = some (Json.obj o) →
      objtext.head? = some '\x7b' →
      objtext.getLast? = some '\x7d' →
      '\x7b' ∉ pre →
      '\x7d' ∉ post →
      ticks3.isPrefixOf (pyStrip (pre ++ objtext ++ post)) = false →
      json_loads (pre ++ objtext ++ post) = none →
      extract_json_from_text (pre ++ objtext ++ post) = .ok (Json.obj o))
    ∧ (∀ text : List Char,
        text = [] ∨
          (ticks3.isPrefixOf (pyStrip text) = false ∧ json_loads text = none ∧
            ('\x7b' ∉ text ∨ '\x7d' ∉ text)) →
        ∃ err, extract_json_from_text text = .error err) := by
  constructor
  · intro pre objtext post o hp hh hl hpre hpost hnf hnone
    have hone : objtext ≠ [] := by
      intro hO
      rw [hO] at hh
      exact Option.noConfusion hh
    have hne : pre ++ objtext ++ post ≠ [] := by
      intro h0
      rcases List.append_eq_nil.mp h0 with ⟨h01, -⟩
      rcases List.append_eq_nil.mp h01 with ⟨-, h03⟩
      exact hone h03
    have hmid := pyStrip_mid hh (by decide) hl (by decide) pre post
    obtain ⟨t, rfl⟩ : ∃ t, objtext = '\x7b' :: t := by
      cases objtext with
      | nil => exact Option.noConfusion hh
      | cons a u => injection hh with h1; exact ⟨u, by rw [h1]⟩
    obtain ⟨mr, hmr⟩ : ∃ mr, ('\x7b' :: t).reverse = '\x7d' :: mr := by
      cases hyr : ('\x7b' :: t).reverse with
      | nil => exact absurd hyr (by simp)
      | cons e mr =>
        have he : ('\x7b' :: t).reverse.head? = some e := by rw [hyr]; rfl
        rw [List.head?_reverse, hl] at he
        injection he with he'
        exact ⟨mr, by rw [he']⟩
    have hpre' : '\x7b' ∉ ldrop pre :=
      fun hm => hpre ((List.dropWhile_suffix isWs).subset hm)
    have hpost' : '\x7d' ∉ rdrop post :=
      fun hm => hpost ((rdrop_isPre post).subset hm)
    have hfind : find '\x7b' (ldrop pre ++ ('\x7b' :: t ++ rdrop post))
        = some (ldrop pre).length := by
      rw [show ldrop pre ++ ('\x7b' :: t ++ rdrop post)
          = ldrop pre ++ '\x7b' :: (t ++ rdrop post) from rfl]
      exact find_append_cons _ hpre'
    have hrfind : rfind '\x7d' (ldrop pre ++ ('\x7b' :: t ++ rdrop post))
        = some ((ldrop pre).length + ('\x7b' :: t).length - 1) := by
      unfold rfind
      rw [List.reverse_append, List.reverse_append, hmr]
      rw [show ((rdrop post).reverse ++ ('\x7d' :: mr)) ++ (ldrop pre).reverse
          = (rdrop post).reverse ++ '\x7d' :: (mr ++ (ldrop pre).reverse) from by simp]
      rw [find_append_cons _ (fun hm => hpost' (List.mem_reverse.mp hm))]
      have hlen : t.length + 1 = mr.length + 1 := by
        have h0 : ('\x7b' :: t).reverse.length = ('\x7d' :: mr).length := by
          rw [hmr]
        simpa using h0
      simp only [Option.map_some, Option.map_some', Option.some.injEq,
        List.length_append, List.length_cons, List.length_reverse]
      omega
    have hjl : json_loads (ldrop pre ++ ('\x7b' :: t ++ rdrop post)) = none := by
      rw [← hmid, json_loads_pyStrip]
      exact hnone
    have hnf2 : ticks3.isPrefixOf (ldrop pre ++ ('\x7b' :: t ++ rdrop post)) = false := by
      rw [← hmid]
      exact hnf
    have harith : ((ldrop pre).length + ('\x7b' :: t).length - 1) + 1
        - (ldrop pre).length = ('\x7b' :: t).length := by
      simp only [List.length_cons]
      omega
    simp only [extract_json_from_text]
    rw [if_neg hne, hmid]
    rw [if_neg (show ¬(ticks3.isPrefixOf (ldrop pre ++ ('\x7b' :: t ++ rdrop post))
        = true) from by rw [hnf2]; exact Bool.false_ne_true)]
    simp only [hjl, hfind, hrfind]
    simp only [harith]
    rw [show ldrop pre ++ ('\x7b' :: t ++ rdrop post)
        = ldrop pre ++ (('\x7b' :: t) ++ rdrop post) from rfl]
    rw [List.drop_left, List.take_left, hp]
  · intro text h0
    rcases h0 with rfl | ⟨hnf, hnone, hbr⟩
    · exact ⟨.emptyInput, rfl⟩
    · by_cases ht : text = []
      · exact ⟨.emptyInput, by rw [ht]; rfl⟩
      · have hjl : json_loads (pyStrip text) = none := by
          rw [json_loads_pyStrip]
          exact hnone
        refine ⟨.noJson, ?_⟩
        simp only [extract_json_from_text]
        rw [if_neg ht]
        rw [if_neg (show ¬(ticks3.isPrefixOf (pyStrip text) = true) from by
          rw [hnf]; exact Bool.false_ne_true)]
        rw [hjl]
        rcases hbr with hb | hb
        · rw [find_eq_none (fun hm => hb (mem_pyStrip hm))]
        · have hrf : rfind '\x7d' (pyStrip text) = none := by
            unfold rfind
            rw [find_eq_none (fun hm => hb (mem_pyStrip (List.mem_reverse.mp hm)))]
            rfl
          rw [hrf]
          cases find '\x7b' (pyStrip text) with
          | none => rfl
          | some s => rfl

/-- C6 witness: an object surrounded by prose is recovered; plain prose
fails. -/
theorem salvage_prose_amended_witness :
    extract_json_from_text ("note: ".toList ++ "\x7b\"a\":1\x7d".toList ++ " ok".toList)
      = .ok (Json.obj [("a".toList, Json.num 1)])
    ∧ ∃ err, extract_json_from_text ("hello".toList) = .error err := by
  constructor
  · exact salvage_prose_amended.1 ("note: ".toList) ("\x7b\"a\":1\x7d".toList)
      (" ok".toList) [("a".toList, Json.num 1)] rfl rfl rfl
      (by decide) (by decide) rfl rfl
  · exact salvage_prose_amended.2 ("hello".toList)
      (Or.inr ⟨rfl, rfl, Or.inl (by decide)⟩)

/-- C6 counterexample: a text with no brace pair on which salvage
nevertheless succeeds -- `json.loads` parses the whole text as a JSON array,
so no `ExtractionError` is raised, contradicting the claimed failure
condition. -/
theorem salvage_no_brace_counterexample :
    ('\x7b' ∉ "[1]".toList ∧ '\x7d' ∉ "[1]".toList)
    ∧ extract_json_from_text ("[1]".toList) = .ok (Json.arr [Json.num 1]) :=
  ⟨⟨by decide, by decide⟩, rfl⟩

end WpChatbot
